import Mathlib

/-!
Verification development for the multigrid solver core and the executor
copy dispatch of the ginkgo repository.

The embedding translates `core/solver/multigrid.cpp` and
`cuda/base/executor.cpp` into Lean.  Numerical kernels (dense apply,
dot, norm) are external collaborators; the cycle engine is embedded as
a trace semantics recording which operation is executed at which level
and in which order, exactly following the control flow of
`MultigridState::run_cycle` and `Multigrid::apply_impl`.  The hierarchy
builder `Multigrid::generate` and the helper `handle_list` are embedded
as executable functions over row counts, factory lists and relaxation
arrays, with `Except` modelling the thrown exceptions
(`GKO_ENSURE_IN_BOUNDS`, `GKO_ASSERT_EQ`, `GKO_NOT_SUPPORTED`).
-/

/-- The cycle type `multigrid_cycle` from `multigrid.hpp`:
v, w, f, kfcg, kgcr. -/
inductive MultigridCycle where
  | v
  | w
  | f
  | kfcg
  | kgcr
deriving DecidableEq, Repr

/-- Value of the floating-point parameter `kcycle_rel_tol`.  Only its
NaN-ness and its order relative to zero drive control flow, so it is
embedded as either NaN or a rational. -/
inductive FpVal where
  | nan
  | val (q : ℚ)
deriving DecidableEq, Repr

/-- `std::isnan(rel_tol)`. -/
def FpVal.isNaN : FpVal → Bool
  | .nan => true
  | .val _ => false

/-- `rel_tol < 0` (false on NaN, as in IEEE comparison). -/
def FpVal.lt0 : FpVal → Bool
  | .nan => false
  | .val q => decide (q < 0)

/-- `rel_tol >= 0` (false on NaN, as in IEEE comparison). -/
def FpVal.ge0 : FpVal → Bool
  | .nan => false
  | .val q => decide (0 ≤ q)

/-- The rational payload of a non-NaN value (0 on NaN, never used there). -/
def FpVal.toQ : FpVal → ℚ
  | .nan => 0
  | .val q => q

/-- Identifiers of the per-level K-cycle work vectors e, v, d, w and the
restricted right-hand side g of `MultigridState`. -/
inductive KVec where
  | ev
  | vv
  | dv
  | wv
  | gv
deriving DecidableEq, Repr

/-- Identifiers of the K-cycle scalar vectors of `MultigridState`. -/
inductive KSc where
  | rho
  | alpha
  | gamma
  | beta
  | zeta
deriving DecidableEq, Repr

/-- One observable operation of `MultigridState::run_cycle`, tagged with
the level at which it executes. -/
inductive Ev where
  /-- residual computation r = b - A x at this level -/
  | resid (level : Nat)
  /-- pre-smoother application accumulating into x -/
  | preSmooth (level : Nat)
  /-- mid-smoother application accumulating into x -/
  | midSmooth (level : Nat)
  /-- post-smoother application accumulating into x -/
  | postSmooth (level : Nat)
  /-- rstr_prlg restrict_apply r into g -/
  | restrictApply (level : Nat)
  /-- rstr_prlg prolong_applyadd e into x -/
  | prolongApplyAdd (level : Nat)
  /-- coarsest solver applied to g, writing the given vector -/
  | coarseSolve (level : Nat) (dst : KVec)
  /-- coarse operator applied: dst = A_coarse · src -/
  | coarseApply (level : Nat) (src dst : KVec)
  /-- t.compute_dot(arg, res) -/
  | dotOp (level : Nat) (t arg : KVec) (res : KSc)
  /-- g.compute_norm2(old_norm) -/
  | normOld (level : Nat)
  /-- g.compute_norm2(new_norm) -/
  | normNew (level : Nat)
  /-- the kcycle_step_1 kernel -/
  | kstep1 (level : Nat)
  /-- the kcycle_check_stop kernel -/
  | kcheck (level : Nat)
  /-- the kcycle_step_2 kernel -/
  | kstep2 (level : Nat)
deriving DecidableEq, Repr

/-- The level tag of an event. -/
def Ev.lvl : Ev → Nat
  | .resid l => l
  | .preSmooth l => l
  | .midSmooth l => l
  | .postSmooth l => l
  | .restrictApply l => l
  | .prolongApplyAdd l => l
  | .coarseSolve l _ => l
  | .coarseApply l _ _ => l
  | .dotOp l _ _ _ => l
  | .normOld l => l
  | .normNew l => l
  | .kstep1 l => l
  | .kcheck l => l
  | .kstep2 l => l

/-- Environment of one `MultigridState`: the hierarchy geometry
(`totalLevel` = rstr_prlg_list.size), the K-cycle parameters, which
levels carry a pre/mid/post smoother (non-null pointer in the smoother
lists), and the residual norms observed by the K-cycle stop check at
each K-active level (`oldNormV`/`newNormV` give the per-column values
of old_norm and new_norm, abstracting the dense norm kernels which are
external collaborators). -/
structure MGEnv where
  totalLevel : Nat
  k_base : Nat
  rel_tol : FpVal
  hasPre : Nat → Bool
  hasMid : Nat → Bool
  hasPost : Nat → Bool
  oldNormV : Nat → List ℚ
  newNormV : Nat → List ℚ

/-- Modelled from the spec: the kernel `multigrid::kcycle_check_stop`
(registered in `multigrid.cpp` but implemented in
`core/solver/multigrid_kernels`, not among the provided sources) sets
`is_stop = true` exactly when every right-hand-side column satisfies
`new_norm <= rel_tol * old_norm`, per the call-site comment
"is_stop = true when all new_norm <= t * old_norm." and the spec. -/
def kcycle_check_stop (rel : ℚ) (oldN newN : List ℚ) : Bool :=
  (newN.zip oldN).all fun p => decide (p.1 ≤ rel * p.2)

/-- The value of the local `is_stop` after the conditional check in
`run_cycle`: initialized to true, overwritten by the check result only
when `!std::isnan(rel_tol) && rel_tol >= 0`. -/
def MGEnv.isStop (env : MGEnv) (level : Nat) : Bool :=
  if env.rel_tol.isNaN = false ∧ env.rel_tol.ge0 = true then
    kcycle_check_stop env.rel_tol.toQ (env.oldNormV level) (env.newNormV level)
  else true

/-- Events of the descent phase of `run_cycle` at one level: the
residual recomputation for nonzero levels, the optional pre-smoother
with residual recomputation, the restriction, and the first sub-solve
(coarsest solver when the next level is terminal, otherwise the trace
`sub` of the recursive call). -/
def firstLeg (env : MGEnv) (level : Nat) (sub : List Ev) : List Ev :=
  (if level ≠ 0 then [Ev.resid level] else [])
    ++ (if env.hasPre level = true then [Ev.preSmooth level, Ev.resid level] else [])
    ++ [Ev.restrictApply level]
    ++ (if level + 1 = env.totalLevel then [Ev.coarseSolve level KVec.ev] else sub)

/-- Events of the second phase for the w- and f-cycles: prolongation,
residual recomputation, optional mid-smoother with residual
recomputation, second restriction, and the second sub-solve (`sub2` is
the trace of the second recursive call when the next level is not
terminal). -/
def wfLeg (env : MGEnv) (level : Nat) (sub2 : List Ev) : List Ev :=
  [Ev.prolongApplyAdd level, Ev.resid level]
    ++ (if env.hasMid level = true then [Ev.midSmooth level, Ev.resid level] else [])
    ++ [Ev.restrictApply level]
    ++ (if level + 1 = env.totalLevel then [Ev.coarseSolve level KVec.ev] else sub2)

/-- Events of K-cycle step 1 at a K-active level: `v = A_coarse · e`,
the two dot products with `t = e` (FCG) or `t = v` (GCR), the optional
old-norm recording, and the kcycle_step_1 kernel. -/
def kStep1Leg (env : MGEnv) (cycle : MultigridCycle) (level : Nat) : List Ev :=
  [Ev.coarseApply level KVec.ev KVec.vv,
   Ev.dotOp level (if cycle = MultigridCycle.kfcg then KVec.ev else KVec.vv) KVec.vv KSc.rho,
   Ev.dotOp level (if cycle = MultigridCycle.kfcg then KVec.ev else KVec.vv) KVec.gv KSc.alpha]
    ++ (if env.rel_tol.isNaN = false ∧ env.rel_tol.ge0 = true then [Ev.normOld level] else [])
    ++ [Ev.kstep1 level]

/-- Events of the conditional K-cycle stop check and step 2: the
new-norm recording plus check kernel when rel_tol is non-NaN and
non-negative, then, when `rel_tol < 0 || (rel_tol >= 0 && !is_stop)`,
the second sub-solve into d (`sub` when the next level is not
terminal), `w = A_coarse · d`, the three dot products with `t = d`
(FCG) or `t = w` (GCR), and the kcycle_step_2 kernel. -/
def kStep2Leg (env : MGEnv) (cycle : MultigridCycle) (level : Nat) (sub : List Ev) : List Ev :=
  (if env.rel_tol.isNaN = false ∧ env.rel_tol.ge0 = true
    then [Ev.normNew level, Ev.kcheck level] else [])
    ++ (if env.rel_tol.lt0 = true ∨ (env.rel_tol.ge0 = true ∧ env.isStop level = false) then
          (if level + 1 = env.totalLevel then [Ev.coarseSolve level KVec.dv] else sub)
            ++ [Ev.coarseApply level KVec.dv KVec.wv,
                Ev.dotOp level (if cycle = MultigridCycle.kfcg then KVec.dv else KVec.wv)
                  KVec.vv KSc.gamma,
                Ev.dotOp level (if cycle = MultigridCycle.kfcg then KVec.dv else KVec.wv)
                  KVec.wv KSc.beta,
                Ev.dotOp level (if cycle = MultigridCycle.kfcg then KVec.dv else KVec.wv)
                  KVec.gv KSc.zeta,
                Ev.kstep2 level]
        else [])

/-- Closing events of `run_cycle` at one level: the prolongation and
the optional post-smoother (residual recomputation then smoothing). -/
def closeLeg (env : MGEnv) (level : Nat) : List Ev :=
  [Ev.prolongApplyAdd level]
    ++ (if env.hasPost level = true then [Ev.resid level, Ev.postSmooth level] else [])

/-- Trace semantics of `MultigridState::run_cycle(cycle, level, ...)`.
The structural `fuel` bounds the recursion depth; every call from the
outer loop passes `fuel = totalLevel`, which is enough because each
recursive call increases `level` by one and recursion stops when
`level + 1 = totalLevel`. -/
def runCycle (env : MGEnv) : Nat → MultigridCycle → Nat → List Ev
  | 0, _, _ => []
  | fuel + 1, cycle, level =>
    firstLeg env level (runCycle env fuel cycle (level + 1))
      ++ (if cycle = MultigridCycle.f ∨ cycle = MultigridCycle.w then
            wfLeg env level
              (if cycle = MultigridCycle.f then runCycle env fuel MultigridCycle.v (level + 1)
               else runCycle env fuel cycle (level + 1))
          else if (cycle = MultigridCycle.kfcg ∨ cycle = MultigridCycle.kgcr) ∧
              level % env.k_base = 0 then
            kStep1Leg env cycle level
              ++ kStep2Leg env cycle level (runCycle env fuel cycle (level + 1))
          else [])
      ++ closeLeg env level

/-- Predicate: the event is a kcycle_step kernel (step 1 or step 2)
executed at level `l`. -/
def isKStepAt (l : Nat) : Ev → Bool
  | Ev.kstep1 m => m == l
  | Ev.kstep2 m => m == l
  | _ => false

/-- Predicate: the event is a norm computation (old_norm or new_norm)
at level `l`. -/
def isNormAt (l : Nat) : Ev → Bool
  | Ev.normOld m => m == l
  | Ev.normNew m => m == l
  | _ => false

/-- Number of inner K-cycle correction steps executed at level `l` in a
trace. -/
def countKSteps (l : Nat) (tr : List Ev) : Nat := tr.countP (isKStepAt l)

/-- Number of norm computations at level `l` in a trace. -/
def countNorms (l : Nat) (tr : List Ev) : Nat := tr.countP (isNormAt l)

theorem mem_firstLeg {env : MGEnv} {l : Nat} {sub : List Ev} {ev : Ev}
    (h : ev ∈ firstLeg env l sub) : ev.lvl = l ∨ ev ∈ sub := by
  unfold firstLeg at h
  simp only [List.mem_append] at h
  rcases h with (((h | h) | h) | h)
  · left; split at h
    · fin_cases h; rfl
    · simp at h
  · left; split at h
    · fin_cases h <;> rfl
    · simp at h
  · left; fin_cases h; rfl
  · split at h
    · left; fin_cases h; rfl
    · right; exact h

theorem mem_wfLeg {env : MGEnv} {l : Nat} {sub2 : List Ev} {ev : Ev}
    (h : ev ∈ wfLeg env l sub2) : ev.lvl = l ∨ ev ∈ sub2 := by
  unfold wfLeg at h
  simp only [List.mem_append] at h
  rcases h with (((h | h) | h) | h)
  · left; fin_cases h <;> rfl
  · left; split at h
    · fin_cases h <;> rfl
    · simp at h
  · left; fin_cases h; rfl
  · split at h
    · left; fin_cases h; rfl
    · right; exact h

theorem mem_kStep1Leg {env : MGEnv} {cycle : MultigridCycle} {l : Nat} {ev : Ev}
    (h : ev ∈ kStep1Leg env cycle l) : ev.lvl = l := by
  unfold kStep1Leg at h
  simp only [List.mem_append] at h
  rcases h with (h | h) | h
  · fin_cases h <;> rfl
  · split at h
    · fin_cases h; rfl
    · simp at h
  · fin_cases h; rfl

theorem mem_kStep2Leg {env : MGEnv} {cycle : MultigridCycle} {l : Nat}
    {sub : List Ev} {ev : Ev}
    (h : ev ∈ kStep2Leg env cycle l sub) : ev.lvl = l ∨ ev ∈ sub := by
  unfold kStep2Leg at h
  simp only [List.mem_append] at h
  rcases h with h | h
  · left; split at h
    · fin_cases h <;> rfl
    · simp at h
  · split at h
    · simp only [List.mem_append] at h
      rcases h with h | h
      · split at h
        · left; fin_cases h; rfl
        · right; exact h
      · left; fin_cases h <;> rfl
    · simp at h

theorem mem_closeLeg {env : MGEnv} {l : Nat} {ev : Ev}
    (h : ev ∈ closeLeg env l) : ev.lvl = l := by
  unfold closeLeg at h
  simp only [List.mem_append] at h
  rcases h with h | h
  · fin_cases h; rfl
  · split at h
    · fin_cases h <;> rfl
    · simp at h

/-- Every event emitted by `run_cycle` at `level` carries a level tag
at least `level`: recursion only descends to coarser levels. -/
theorem runCycle_lvl_ge (env : MGEnv) :
    ∀ fuel cycle level, ∀ ev ∈ runCycle env fuel cycle level, level ≤ ev.lvl := by
  intro fuel
  induction fuel with
  | zero => intro c l ev h; simp [runCycle] at h
  | succ n ih =>
    intro c l ev h
    simp only [runCycle, List.mem_append] at h
    rcases h with (h | h) | h
    · rcases mem_firstLeg h with h | h
      · omega
      · exact Nat.le_of_succ_le (ih c (l + 1) ev h)
    · split at h
      · rcases mem_wfLeg h with h | h
        · omega
        · split at h
          · exact Nat.le_of_succ_le (ih MultigridCycle.v (l + 1) ev h)
          · exact Nat.le_of_succ_le (ih c (l + 1) ev h)
      · split at h
        · simp only [List.mem_append] at h
          rcases h with h | h
          · exact Nat.le_of_eq (mem_kStep1Leg h).symm
          · rcases mem_kStep2Leg h with h | h
            · omega
            · exact Nat.le_of_succ_le (ih c (l + 1) ev h)
        · simp at h
    · exact Nat.le_of_eq (mem_closeLeg h).symm

theorem countP_eq_zero_of_lvl_gt {l : Nat} {tr : List Ev} {p : Ev → Bool}
    (hp : ∀ ev, p ev = true → ev.lvl = l)
    (h : ∀ ev ∈ tr, l < ev.lvl) : tr.countP p = 0 := by
  rw [List.countP_eq_zero]
  intro ev hev hpe
  exact absurd (hp ev hpe) (by have := h ev hev; omega)

theorem isKStepAt_lvl {l : Nat} {ev : Ev} (h : isKStepAt l ev = true) : ev.lvl = l := by
  cases ev <;> simp_all [isKStepAt, Ev.lvl]

theorem isNormAt_lvl {l : Nat} {ev : Ev} (h : isNormAt l ev = true) : ev.lvl = l := by
  cases ev <;> simp_all [isNormAt, Ev.lvl]

theorem countKSteps_runCycle_deeper (env : MGEnv) (fuel : Nat)
    (cycle : MultigridCycle) (l : Nat) :
    countKSteps l (runCycle env fuel cycle (l + 1)) = 0 :=
  countP_eq_zero_of_lvl_gt (fun _ h => isKStepAt_lvl h)
    (fun ev hev => runCycle_lvl_ge env fuel cycle (l + 1) ev hev)

theorem countNorms_runCycle_deeper (env : MGEnv) (fuel : Nat)
    (cycle : MultigridCycle) (l : Nat) :
    countNorms l (runCycle env fuel cycle (l + 1)) = 0 :=
  countP_eq_zero_of_lvl_gt (fun _ h => isNormAt_lvl h)
    (fun ev hev => runCycle_lvl_ge env fuel cycle (l + 1) ev hev)

theorem countKSteps_firstLeg (env : MGEnv) (l : Nat) (sub : List Ev)
    (hsub : countKSteps l sub = 0) : countKSteps l (firstLeg env l sub) = 0 := by
  unfold countKSteps at hsub ⊢
  unfold firstLeg
  simp only [List.countP_append]
  split_ifs <;> simp_all [List.countP_cons, isKStepAt]

theorem countKSteps_closeLeg (env : MGEnv) (l : Nat) :
    countKSteps l (closeLeg env l) = 0 := by
  unfold closeLeg countKSteps
  simp only [List.countP_append]
  split_ifs <;> simp [List.countP_cons, isKStepAt]

theorem countKSteps_kStep1Leg (env : MGEnv) (cycle : MultigridCycle) (l : Nat) :
    countKSteps l (kStep1Leg env cycle l) = 1 := by
  unfold kStep1Leg countKSteps
  simp only [List.countP_append]
  split_ifs <;> simp [List.countP_cons, isKStepAt]

theorem countKSteps_kStep2Leg (env : MGEnv) (cycle : MultigridCycle) (l : Nat)
    (sub : List Ev) (hsub : countKSteps l sub = 0) :
    countKSteps l (kStep2Leg env cycle l sub) =
      (if env.rel_tol.lt0 = true ∨ (env.rel_tol.ge0 = true ∧ env.isStop l = false)
       then 1 else 0) := by
  unfold countKSteps at hsub ⊢
  unfold kStep2Leg
  simp only [List.countP_append]
  split_ifs <;> simp_all [List.countP_cons, isKStepAt]

theorem countNorms_firstLeg (env : MGEnv) (l : Nat) (sub : List Ev)
    (hsub : countNorms l sub = 0) : countNorms l (firstLeg env l sub) = 0 := by
  unfold countNorms at hsub ⊢
  unfold firstLeg
  simp only [List.countP_append]
  split_ifs <;> simp_all [List.countP_cons, isNormAt]

theorem countNorms_closeLeg (env : MGEnv) (l : Nat) :
    countNorms l (closeLeg env l) = 0 := by
  unfold closeLeg countNorms
  simp only [List.countP_append]
  split_ifs <;> simp [List.countP_cons, isNormAt]

theorem countNorms_kStep1Leg (env : MGEnv) (cycle : MultigridCycle) (l : Nat) :
    countNorms l (kStep1Leg env cycle l) =
      (if env.rel_tol.isNaN = false ∧ env.rel_tol.ge0 = true then 1 else 0) := by
  unfold kStep1Leg countNorms
  simp only [List.countP_append]
  split_ifs <;> simp [List.countP_cons, isNormAt]

theorem countNorms_kStep2Leg (env : MGEnv) (cycle : MultigridCycle) (l : Nat)
    (sub : List Ev) (hsub : countNorms l sub = 0) :
    countNorms l (kStep2Leg env cycle l sub) =
      (if env.rel_tol.isNaN = false ∧ env.rel_tol.ge0 = true then 1 else 0) := by
  unfold countNorms at hsub ⊢
  unfold kStep2Leg
  simp only [List.countP_append]
  split_ifs <;> simp_all [List.countP_cons, isNormAt]

theorem countKSteps_runCycle_kactive (env : MGEnv) (fuel : Nat)
    (cycle : MultigridCycle) (level : Nat)
    (hc : cycle = MultigridCycle.kfcg ∨ cycle = MultigridCycle.kgcr)
    (hk : level % env.k_base = 0) :
    countKSteps level (runCycle env (fuel + 1) cycle level) =
      1 + (if env.rel_tol.lt0 = true ∨
              (env.rel_tol.ge0 = true ∧ env.isStop level = false)
           then 1 else 0) := by
  have hf : ¬(cycle = MultigridCycle.f ∨ cycle = MultigridCycle.w) := by
    rcases hc with rfl | rfl <;> simp
  simp only [runCycle, if_neg hf, if_pos (And.intro hc hk)]
  unfold countKSteps
  simp only [List.countP_append]
  have h1 := countKSteps_firstLeg env level _
    (countKSteps_runCycle_deeper env fuel cycle level)
  have h2 := countKSteps_kStep1Leg env cycle level
  have h3 := countKSteps_kStep2Leg env cycle level _
    (countKSteps_runCycle_deeper env fuel cycle level)
  have h4 := countKSteps_closeLeg env level
  unfold countKSteps at h1 h2 h3 h4
  rw [h1, h2, h3, h4]
  split_ifs <;> omega

theorem countNorms_runCycle_kactive (env : MGEnv) (fuel : Nat)
    (cycle : MultigridCycle) (level : Nat)
    (hc : cycle = MultigridCycle.kfcg ∨ cycle = MultigridCycle.kgcr)
    (hk : level % env.k_base = 0) :
    countNorms level (runCycle env (fuel + 1) cycle level) =
      (if env.rel_tol.isNaN = false ∧ env.rel_tol.ge0 = true then 2 else 0) := by
  have hf : ¬(cycle = MultigridCycle.f ∨ cycle = MultigridCycle.w) := by
    rcases hc with rfl | rfl <;> simp
  simp only [runCycle, if_neg hf, if_pos (And.intro hc hk)]
  unfold countNorms
  simp only [List.countP_append]
  have h1 := countNorms_firstLeg env level _
    (countNorms_runCycle_deeper env fuel cycle level)
  have h2 := countNorms_kStep1Leg env cycle level
  have h3 := countNorms_kStep2Leg env cycle level _
    (countNorms_runCycle_deeper env fuel cycle level)
  have h4 := countNorms_closeLeg env level
  unfold countNorms at h1 h2 h3 h4
  rw [h1, h2, h3, h4]
  split_ifs <;> omega

/-- Claim C1: in a K-cycle (kfcg or kgcr) at a level with
`level mod k_base == 0`, the number of inner correction steps executed
(kcycle_step kernels at that level) is: exactly two when `rel_tol < 0`;
exactly one, with no norm computed at that level, when `rel_tol` is
NaN; and, when `rel_tol >= 0`, one step when every right-hand-side
column satisfies `new_norm <= rel_tol * old_norm` after step 1 and two
steps otherwise (the second step runs exactly when the stop check
fails). -/
theorem kcycle_step_selection (env : MGEnv) (fuel : Nat)
    (cycle : MultigridCycle) (level : Nat)
    (hc : cycle = MultigridCycle.kfcg ∨ cycle = MultigridCycle.kgcr)
    (hk : level % env.k_base = 0) :
    (env.rel_tol.lt0 = true →
        countKSteps level (runCycle env (fuel + 1) cycle level) = 2)
    ∧ (env.rel_tol.isNaN = true →
        countKSteps level (runCycle env (fuel + 1) cycle level) = 1
          ∧ countNorms level (runCycle env (fuel + 1) cycle level) = 0)
    ∧ (env.rel_tol.ge0 = true →
        countKSteps level (runCycle env (fuel + 1) cycle level) =
          (if ((env.newNormV level).zip (env.oldNormV level)).all
                (fun p => decide (p.1 ≤ env.rel_tol.toQ * p.2)) = true
           then 1 else 2)) := by
  have hK := countKSteps_runCycle_kactive env fuel cycle level hc hk
  have hN := countNorms_runCycle_kactive env fuel cycle level hc hk
  refine ⟨?_, ?_, ?_⟩
  · intro h
    rw [hK, if_pos (Or.inl h)]
  · intro h
    cases hrt : env.rel_tol with
    | nan =>
      have h1 : env.rel_tol.lt0 = false := by rw [hrt]; rfl
      have h2 : env.rel_tol.ge0 = false := by rw [hrt]; rfl
      have h3 : env.rel_tol.isNaN = true := by rw [hrt]; rfl
      constructor
      · rw [hK]; simp [h1, h2]
      · rw [hN]; simp [h3]
    | val q => rw [hrt] at h; simp [FpVal.isNaN] at h
  · intro h
    have hnn : env.rel_tol.isNaN = false := by
      cases hrt : env.rel_tol
      · rw [hrt] at h; simp [FpVal.ge0] at h
      · simp [FpVal.isNaN]
    have hlt : env.rel_tol.lt0 = false := by
      cases hrt : env.rel_tol
      · simp [FpVal.lt0]
      · rw [hrt] at h
        simp only [FpVal.ge0, decide_eq_true_eq] at h
        simp only [FpVal.lt0, decide_eq_false_iff_not]
        exact not_lt.mpr h
    have hstop : env.isStop level =
        ((env.newNormV level).zip (env.oldNormV level)).all
          (fun p => decide (p.1 ≤ env.rel_tol.toQ * p.2)) := by
      unfold MGEnv.isStop kcycle_check_stop
      rw [if_pos (And.intro hnn h)]
    rw [hK, hstop]
    rcases hall : ((env.newNormV level).zip (env.oldNormV level)).all
        (fun p => decide (p.1 ≤ env.rel_tol.toQ * p.2)) with _ | _
    · simp [hlt, h]
    · simp [hlt, h]

/-- Concrete `MultigridState` environment used by the witnesses: two
levels, k_base 1, rel_tol 1, no smoothers, empty right-hand-side norm
columns so that the K-cycle stop check trivially holds. -/
def envW : MGEnv where
  totalLevel := 2
  k_base := 1
  rel_tol := FpVal.val 1
  hasPre := fun _ => false
  hasMid := fun _ => false
  hasPost := fun _ => false
  oldNormV := fun _ => []
  newNormV := fun _ => []

theorem kcycle_step_selection_witness :
    countKSteps 0 (runCycle envW 2 MultigridCycle.kfcg 0) = 1 := by
  have h := (kcycle_step_selection envW 1 MultigridCycle.kfcg 0
    (Or.inl rfl) (by decide)).2.2 (by decide)
  rw [h]
  decide

/-- Claim C5: in a W- or F-cycle at a non-terminal level, after the
first recursive sub-solve the engine prolongs e into x, recomputes the
residual, optionally applies the mid-smoother followed by another
residual recomputation, restricts again, and recurses a second time;
the second sub-call of an F-cycle runs as a V-cycle while a W-cycle
repeats the W-cycle. -/
theorem wf_cycle_second_recursion (env : MGEnv) (fuel : Nat)
    (cycle : MultigridCycle) (level : Nat)
    (hc : cycle = MultigridCycle.f ∨ cycle = MultigridCycle.w)
    (ht : level + 1 ≠ env.totalLevel) :
    runCycle env (fuel + 1) cycle level =
      firstLeg env level (runCycle env fuel cycle (level + 1))
        ++ ([Ev.prolongApplyAdd level, Ev.resid level]
            ++ (if env.hasMid level = true then [Ev.midSmooth level, Ev.resid level]
                else [])
            ++ [Ev.restrictApply level]
            ++ runCycle env fuel
                (if cycle = MultigridCycle.f then MultigridCycle.v else cycle)
                (level + 1))
        ++ closeLeg env level := by
  rcases hc with rfl | rfl <;>
    simp [runCycle, wfLeg, ht]

theorem wf_cycle_second_recursion_witness :
    runCycle envW 2 MultigridCycle.f 0 =
      firstLeg envW 0 (runCycle envW 1 MultigridCycle.f 1)
        ++ ([Ev.prolongApplyAdd 0, Ev.resid 0]
            ++ (if envW.hasMid 0 = true then [Ev.midSmooth 0, Ev.resid 0] else [])
            ++ [Ev.restrictApply 0]
            ++ runCycle envW 1
                (if MultigridCycle.f = MultigridCycle.f then MultigridCycle.v
                 else MultigridCycle.f) 1)
        ++ closeLeg envW 0 :=
  wf_cycle_second_recursion envW 1 MultigridCycle.f 0 (Or.inl rfl) (by decide)

theorem normOld_mem_firstLeg {env : MGEnv} {l m : Nat} {sub : List Ev}
    (h : Ev.normOld m ∈ firstLeg env l sub) : Ev.normOld m ∈ sub := by
  unfold firstLeg at h
  simp only [List.mem_append] at h
  rcases h with (((h | h) | h) | h)
  · split at h <;> simp at h
  · split at h <;> simp at h
  · simp at h
  · split at h
    · simp at h
    · exact h

theorem normOld_mem_kStep1Leg {env : MGEnv} {cycle : MultigridCycle} {l m : Nat}
    (h : Ev.normOld m ∈ kStep1Leg env cycle l) :
    (env.rel_tol.isNaN = false ∧ env.rel_tol.ge0 = true) ∧ m = l := by
  unfold kStep1Leg at h
  simp only [List.mem_append] at h
  rcases h with (h | h) | h
  · simp at h
  · split at h
    · rename_i hcond
      simp only [List.mem_cons, List.not_mem_nil, or_false, Ev.normOld.injEq] at h
      exact ⟨hcond, h⟩
    · simp at h
  · simp at h

theorem normOld_mem_kStep2Leg {env : MGEnv} {cycle : MultigridCycle} {l m : Nat}
    {sub : List Ev} (h : Ev.normOld m ∈ kStep2Leg env cycle l sub) :
    Ev.normOld m ∈ sub := by
  unfold kStep2Leg at h
  simp only [List.mem_append] at h
  rcases h with h | h
  · split at h <;> simp at h
  · split at h
    · simp only [List.mem_append] at h
      rcases h with h | h
      · split at h
        · simp at h
        · exact h
      · simp at h
    · simp at h

theorem normOld_not_mem_closeLeg {env : MGEnv} {l m : Nat} :
    Ev.normOld m ∉ closeLeg env l := by
  intro h
  unfold closeLeg at h
  simp only [List.mem_append] at h
  rcases h with h | h
  · simp at h
  · split at h <;> simp at h

/-- Claim C6: at a K-active level, step 1 is always executed: the trace
continues after the descent phase with `v = A_coarse · e`, the dot
products `rho = dot(t, v)` and `alpha = dot(t, g)` where `t = e` for
the FCG variant and `t = v` for the GCR variant, then records
`old_norm = norm(g)` if and only if `rel_tol` is not NaN and
non-negative, and runs the kcycle_step_1 kernel. -/
theorem kcycle_step_one_structure (env : MGEnv) (fuel : Nat)
    (cycle : MultigridCycle) (level : Nat)
    (hc : cycle = MultigridCycle.kfcg ∨ cycle = MultigridCycle.kgcr)
    (hk : level % env.k_base = 0) :
    runCycle env (fuel + 1) cycle level =
      firstLeg env level (runCycle env fuel cycle (level + 1))
        ++ ([Ev.coarseApply level KVec.ev KVec.vv,
             Ev.dotOp level
               (if cycle = MultigridCycle.kfcg then KVec.ev else KVec.vv)
               KVec.vv KSc.rho,
             Ev.dotOp level
               (if cycle = MultigridCycle.kfcg then KVec.ev else KVec.vv)
               KVec.gv KSc.alpha]
            ++ (if env.rel_tol.isNaN = false ∧ env.rel_tol.ge0 = true
                then [Ev.normOld level] else [])
            ++ [Ev.kstep1 level]
            ++ kStep2Leg env cycle level (runCycle env fuel cycle (level + 1)))
        ++ closeLeg env level
    ∧ (Ev.normOld level ∈ runCycle env (fuel + 1) cycle level ↔
        (env.rel_tol.isNaN = false ∧ env.rel_tol.ge0 = true)) := by
  have hf : ¬(cycle = MultigridCycle.f ∨ cycle = MultigridCycle.w) := by
    rcases hc with rfl | rfl <;> simp
  constructor
  · simp only [runCycle, if_neg hf, if_pos (And.intro hc hk), kStep1Leg,
      List.append_assoc]
  · constructor
    · intro hmem
      simp only [runCycle, if_neg hf, if_pos (And.intro hc hk),
        List.mem_append] at hmem
      rcases hmem with ((h | (h | h)) | h)
      · have h2 := normOld_mem_firstLeg h
        have h3 := runCycle_lvl_ge env fuel cycle (level + 1) _ h2
        simp only [Ev.lvl] at h3
        omega
      · exact (normOld_mem_kStep1Leg h).1
      · have h2 := normOld_mem_kStep2Leg h
        have h3 := runCycle_lvl_ge env fuel cycle (level + 1) _ h2
        simp only [Ev.lvl] at h3
        omega
      · exact absurd h normOld_not_mem_closeLeg
    · intro hcond
      simp only [runCycle, if_neg hf, if_pos (And.intro hc hk), List.mem_append]
      refine Or.inl (Or.inr (Or.inl ?_))
      unfold kStep1Leg
      simp [hcond]

theorem kcycle_step_one_structure_witness :
    Ev.normOld 0 ∈ runCycle envW 2 MultigridCycle.kgcr 0 :=
  ((kcycle_step_one_structure envW 1 MultigridCycle.kgcr 0
    (Or.inr rfl) (by decide)).2).mpr (by decide)

/-- Observable operations of `Multigrid::apply_impl(b, x)`. -/
inductive OEv where
  /-- `exec->run(make_initialize(&stop_status))`: per-column status init -/
  | initStatus
  /-- initial residual computation r = b - A x before the loop -/
  | initResid
  /-- `log<iteration_complete>(this, iter, r, x)` -/
  | logIteration (iter : Nat)
  /-- `stop_criterion->update().num_iterations(iter).residual(r).solution(x)
      .check(RelativeStoppingId, true, ...)`; the flag records that all
      columns are required to have converged -/
  | checkCriterion (iter : Nat) (allColumns : Bool)
  /-- zero fill of the correction vector e of hierarchy entry i -/
  | zeroE (i : Nat)
  /-- an operation of the cycle run from level 0 -/
  | innerEv (e : Ev)
  /-- residual recomputation r = b - A x after the cycle -/
  | recomputeResid
deriving DecidableEq, Repr

/-- The while loop of `Multigrid::apply_impl(b, x)`: each iteration
logs, checks the stopping criterion (break on convergence of all
columns), zero-fills every correction vector, runs one cycle from
level 0 and recomputes the residual.  `stop` abstracts the stopping
criterion collaborator (result of `check` at each iteration count);
the returned flag records whether the loop terminated within `fuel`
iterations; the loop itself has no iteration cap, so every finite
`fuel` is exhausted when `stop` never signals. -/
def outerLoop (env : MGEnv) (cycle : MultigridCycle) (stop : Nat → Bool) :
    Nat → Nat → List OEv × Bool
  | 0, _ => ([], false)
  | fuel + 1, iter =>
    if stop iter = true then
      ([OEv.logIteration iter, OEv.checkCriterion iter true], true)
    else
      ([OEv.logIteration iter, OEv.checkCriterion iter true]
          ++ (List.range env.totalLevel).map OEv.zeroE
          ++ (runCycle env env.totalLevel cycle 0).map OEv.innerEv
          ++ [OEv.recomputeResid]
          ++ (outerLoop env cycle stop fuel (iter + 1)).1,
       (outerLoop env cycle stop fuel (iter + 1)).2)

/-- Trace semantics of `Multigrid::apply_impl(b, x)`: status
initialization and one initial residual computation, then the loop
starting at iteration 0. -/
def apply_impl (env : MGEnv) (cycle : MultigridCycle) (stop : Nat → Bool)
    (fuel : Nat) : List OEv × Bool :=
  ([OEv.initStatus, OEv.initResid] ++ (outerLoop env cycle stop fuel 0).1,
   (outerLoop env cycle stop fuel 0).2)

theorem outerLoop_no_init (env : MGEnv) (cycle : MultigridCycle)
    (stop : Nat → Bool) : ∀ fuel iter,
    OEv.initStatus ∉ (outerLoop env cycle stop fuel iter).1
      ∧ OEv.initResid ∉ (outerLoop env cycle stop fuel iter).1 := by
  intro fuel
  induction fuel with
  | zero => intro iter; simp [outerLoop]
  | succ n ih =>
    intro iter
    rcases hs : stop iter with _ | _ <;>
      simp [outerLoop, hs, List.mem_append, ih (iter + 1)]

theorem outerLoop_flag (env : MGEnv) (cycle : MultigridCycle)
    (stop : Nat → Bool) : ∀ fuel iter,
    (outerLoop env cycle stop fuel iter).2 = true ↔
      ∃ j, j < fuel ∧ stop (iter + j) = true := by
  intro fuel
  induction fuel with
  | zero => intro iter; simp [outerLoop]
  | succ n ih =>
    intro iter
    rcases hs : stop iter with _ | _
    · simp only [outerLoop, hs]
      rw [if_neg (by simp)]
      simp only [ih (iter + 1)]
      constructor
      · rintro ⟨j, hj, hsj⟩
        refine ⟨j + 1, by omega, ?_⟩
        have he : iter + 1 + j = iter + (j + 1) := by omega
        rwa [he] at hsj
      · rintro ⟨j, hj, hsj⟩
        cases j with
        | zero => rw [Nat.add_zero] at hsj; rw [hs] at hsj; cases hsj
        | succ k =>
          refine ⟨k, by omega, ?_⟩
          have he : iter + 1 + k = iter + (k + 1) := by omega
          rwa [he]
    · simp only [outerLoop, hs, if_pos]
      exact ⟨fun _ => ⟨0, by omega, by rwa [Nat.add_zero]⟩, fun _ => trivial⟩

/-- Claim C4: `apply_impl(b, x)` initializes the per-column stopping
status and computes the initial residual exactly once, before the
loop; each iteration first logs and invokes the stopping criterion
(with the iteration count, residual and solution, requiring all
columns), stopping when it signals convergence; otherwise it
zero-fills every level correction vector, runs exactly one cycle from
level 0, recomputes the residual and continues; the loop has no
iteration cap of its own: it terminates within `fuel` iterations
exactly when the criterion signals at some iteration below `fuel`. -/
theorem multigrid_outer_loop (env : MGEnv) (cycle : MultigridCycle)
    (stop : Nat → Bool) (fuel : Nat) :
    (apply_impl env cycle stop fuel).1 =
        [OEv.initStatus, OEv.initResid] ++ (outerLoop env cycle stop fuel 0).1
    ∧ List.count OEv.initStatus (apply_impl env cycle stop fuel).1 = 1
    ∧ List.count OEv.initResid (apply_impl env cycle stop fuel).1 = 1
    ∧ (∀ f iter, stop iter = true →
        outerLoop env cycle stop (f + 1) iter =
          ([OEv.logIteration iter, OEv.checkCriterion iter true], true))
    ∧ (∀ f iter, stop iter = false →
        outerLoop env cycle stop (f + 1) iter =
          ([OEv.logIteration iter, OEv.checkCriterion iter true]
              ++ (List.range env.totalLevel).map OEv.zeroE
              ++ (runCycle env env.totalLevel cycle 0).map OEv.innerEv
              ++ [OEv.recomputeResid]
              ++ (outerLoop env cycle stop f (iter + 1)).1,
           (outerLoop env cycle stop f (iter + 1)).2))
    ∧ ((apply_impl env cycle stop fuel).2 = true ↔ ∃ j, j < fuel ∧ stop j = true) := by
  have hni := outerLoop_no_init env cycle stop fuel 0
  refine ⟨rfl, ?_, ?_, ?_, ?_, ?_⟩
  · unfold apply_impl
    simp [List.count_append, List.count_cons, List.count_eq_zero.mpr hni.1]
  · unfold apply_impl
    simp [List.count_append, List.count_cons, List.count_eq_zero.mpr hni.2]
  · intro f iter hs
    simp [outerLoop, hs]
  · intro f iter hs
    simp [outerLoop, hs]
  · unfold apply_impl
    simpa using outerLoop_flag env cycle stop fuel 0

theorem multigrid_outer_loop_witness :
    outerLoop envW MultigridCycle.v (fun _ => true) (0 + 1) 0 =
      ([OEv.logIteration 0, OEv.checkCriterion 0 true], true) :=
  (multigrid_outer_loop envW MultigridCycle.v (fun _ => true) 1).2.2.2.1 0 0 rfl

/-- The enum `multigrid_mid_uses`: the mid smoother uses its own list,
the pre list, or the post list. -/
inductive MidUses where
  | mid
  | pre
  | post
deriving DecidableEq, Repr

/-- Smoother-list half of `handle_list`: with a non-empty list resolve
`temp_index = list_size == 1 ? 0 : index`, check bounds
(`GKO_ENSURE_IN_BOUNDS`), then either append a null smoother (null
factory entry) or the smoother generated from the current matrix by
the resolved factory (embedded as the pair of factory id and matrix
row count); with an empty list append a null smoother. -/
def handle_list_smoother (index matrix_rows : Nat)
    (smoother_list : List (Option Nat))
    (smoother : List (Option (Nat × Nat))) :
    Except String (List (Option (Nat × Nat))) :=
  let list_size := smoother_list.length
  if list_size ≠ 0 then
    let temp_index := if list_size = 1 then 0 else index
    if temp_index < list_size then
      match smoother_list.getD temp_index none with
      | none => Except.ok (smoother ++ [none])
      | some fid => Except.ok (smoother ++ [some (fid, matrix_rows)])
    else Except.error "GKO_ENSURE_IN_BOUNDS"
  else Except.ok (smoother ++ [none])

/-- Relaxation-array half of `handle_list`: with a non-empty array
resolve `temp_index = array_size == 1 ? 0 : index`, check bounds, and
append the scalar at the resolved index; with an empty array append
the default relaxation one. -/
def handle_list_relaxation (index : Nat) (relaxation_array : List ℚ)
    (relaxation : List ℚ) : Except String (List ℚ) :=
  let array_size := relaxation_array.length
  if array_size ≠ 0 then
    let temp_index := if array_size = 1 then 0 else index
    if temp_index < array_size then
      Except.ok (relaxation ++ [relaxation_array.getD temp_index 1])
    else Except.error "GKO_ENSURE_IN_BOUNDS"
  else Except.ok (relaxation ++ [1])

/-- The helper `handle_list` of `multigrid.cpp`: appends the resolved
smoother and the resolved relaxation scalar to the accumulated lists,
with the two bounds checks able to throw. -/
def handle_list (index matrix_rows : Nat)
    (smoother_list : List (Option Nat)) (relaxation_array : List ℚ)
    (smoother : List (Option (Nat × Nat))) (relaxation : List ℚ) :
    Except String (List (Option (Nat × Nat)) × List ℚ) := do
  let smoother2 ← handle_list_smoother index matrix_rows smoother_list smoother
  let relaxation2 ← handle_list_relaxation index relaxation_array relaxation
  pure (smoother2, relaxation2)

/-- Parameters of `Multigrid::generate`, with matrices abstracted to
their row counts: each rstr_prlg factory maps the current row count to
the coarse-operator row count, the selectors map (level, matrix) to a
list index, smoother factories are ids (null entries allowed). -/
structure GenParams where
  max_levels : Nat
  min_coarse_rows : Nat
  rstr_prlg : List (Nat → Nat)
  rstr_prlg_index : Nat → Nat → Nat
  pre_smoother : List (Option Nat)
  pre_relaxation : List ℚ
  mid_smoother : List (Option Nat)
  mid_relaxation : List ℚ
  post_smoother : List (Option Nat)
  post_relaxation : List ℚ
  mid_case : MidUses
  post_uses_pre : Bool
  coarsest_solver : List (Option Nat)
  solver_index : Nat → Nat → Nat

/-- Accumulated member lists of `Multigrid` during `generate`.  A
committed hierarchy entry is the pair (parent row count, coarse row
count) of its rstr_prlg operator. -/
structure GenState where
  rstr_prlg_list : List (Nat × Nat)
  pre_smoother_list : List (Option (Nat × Nat))
  pre_relaxation_list : List ℚ
  mid_smoother_list : List (Option (Nat × Nat))
  mid_relaxation_list : List ℚ
  post_smoother_list : List (Option (Nat × Nat))
  post_relaxation_list : List ℚ
deriving DecidableEq, Repr

/-- The empty member lists at entry of `generate`. -/
def initGenState : GenState := ⟨[], [], [], [], [], [], []⟩

/-- The while loop of `Multigrid::generate`: while
`level < max_levels && num_rows > min_coarse_rows`, select a coarsening
factory (bounds-checked), produce the coarse operator, break when the
row count is not changed (that level is discarded), otherwise commit
the level, generate pre (and configuration-dependent mid/post)
smoothers and relaxations, and continue on the coarse operator.  The
structural `fuel` only bounds the recursion; `generate` passes
`max_levels + 1`, which the guard `level < max_levels` can never
exhaust. -/
def genLoop (p : GenParams) :
    Nat → Nat → Nat → GenState → Except String (GenState × Nat × Nat)
  | 0, _, _, _ => Except.error "fuel"
  | fuel + 1, level, num_rows, st =>
    if level < p.max_levels ∧ p.min_coarse_rows < num_rows then do
      let index := p.rstr_prlg_index level num_rows
      if index < p.rstr_prlg.length then
        let coarse_rows := (p.rstr_prlg.getD index id) num_rows
        if coarse_rows = num_rows then
          pure (st, level, num_rows)
        else do
          let st1 : GenState :=
            { st with rstr_prlg_list := st.rstr_prlg_list ++ [(num_rows, coarse_rows)] }
          let (ps, pr) ← handle_list index num_rows p.pre_smoother p.pre_relaxation
            st1.pre_smoother_list st1.pre_relaxation_list
          let st2 : GenState :=
            { st1 with pre_smoother_list := ps, pre_relaxation_list := pr }
          let st3 ←
            if p.mid_case = MidUses.mid then do
              let (ms, mr) ← handle_list index num_rows p.mid_smoother p.mid_relaxation
                st2.mid_smoother_list st2.mid_relaxation_list
              pure { st2 with mid_smoother_list := ms, mid_relaxation_list := mr }
            else pure st2
          let st4 ←
            if p.post_uses_pre = false then do
              let (qs, qr) ← handle_list index num_rows p.post_smoother p.post_relaxation
                st3.post_smoother_list st3.post_relaxation_list
              pure { st3 with post_smoother_list := qs, post_relaxation_list := qr }
            else pure st3
          genLoop p fuel (level + 1) coarse_rows st4
      else Except.error "GKO_ENSURE_IN_BOUNDS"
    else pure (st, level, num_rows)

/-- The coarsest-level solver committed by `generate`: either the
identity operator of the given size, or the solver generated from the
final coarse matrix by the factory with the given id. -/
inductive CoarsestSolver where
  | identity (size : Nat)
  | generated (factory : Nat) (matrix_rows : Nat)
deriving DecidableEq, Repr

/-- The generated hierarchy: committed levels, smoother and relaxation
lists, and the coarsest solver. -/
structure Hierarchy where
  rstr_prlg_list : List (Nat × Nat)
  pre_smoother_list : List (Option (Nat × Nat))
  pre_relaxation_list : List ℚ
  mid_smoother_list : List (Option (Nat × Nat))
  mid_relaxation_list : List ℚ
  post_smoother_list : List (Option (Nat × Nat))
  post_relaxation_list : List ℚ
  coarsest_solver : CoarsestSolver
deriving DecidableEq, Repr

/-- Packs the member lists and the coarsest solver into a hierarchy. -/
def mkHierarchy (st : GenState) (cs : CoarsestSolver) : Hierarchy :=
  ⟨st.rstr_prlg_list, st.pre_smoother_list, st.pre_relaxation_list,
   st.mid_smoother_list, st.mid_relaxation_list,
   st.post_smoother_list, st.post_relaxation_list, cs⟩

/-- The aliasing assignments after the loop of `Multigrid::generate`:
`post_uses_pre` makes the post lists share the pre lists, and
`mid_case` pre/post makes the mid lists share the pre or post lists. -/
def genAlias (p : GenParams) (st0 : GenState) : GenState :=
  let st1 : GenState :=
    if p.post_uses_pre = true then
      { st0 with post_smoother_list := st0.pre_smoother_list,
                 post_relaxation_list := st0.pre_relaxation_list }
    else st0
  if p.mid_case = MidUses.pre then
    { st1 with mid_smoother_list := st1.pre_smoother_list,
               mid_relaxation_list := st1.pre_relaxation_list }
  else if p.mid_case = MidUses.post then
    { st1 with mid_smoother_list := st1.post_smoother_list,
               mid_relaxation_list := st1.post_relaxation_list }
  else st1

/-- The tail of `Multigrid::generate`: assert at least one generated
level (`GKO_ASSERT_EQ(level > 0, true)`), then produce the coarsest
solver from the final coarse matrix: identity when no coarsest factory
list is configured, otherwise the bounds-checked selected factory,
with a null selected factory also falling back to identity. -/
def genCoarsest (p : GenParams) (st2 : GenState) (level num_rows : Nat) :
    Except String Hierarchy :=
  if 0 < level then
    if p.coarsest_solver.length = 0 then
      Except.ok (mkHierarchy st2 (CoarsestSolver.identity num_rows))
    else
      if p.solver_index level num_rows < p.coarsest_solver.length then
        match p.coarsest_solver.getD (p.solver_index level num_rows) none with
        | none => Except.ok (mkHierarchy st2 (CoarsestSolver.identity num_rows))
        | some fid =>
          Except.ok (mkHierarchy st2 (CoarsestSolver.generated fid num_rows))
      else Except.error "GKO_ENSURE_IN_BOUNDS"
  else Except.error "GKO_ASSERT_EQ"

/-- `Multigrid::generate`: run the coarsening loop, apply the post/mid
aliasing, then the assertion and coarsest-solver generation. -/
def generate (p : GenParams) (system_rows : Nat) : Except String Hierarchy := do
  let (st0, level, num_rows) ← genLoop p (p.max_levels + 1) 0 system_rows initGenState
  genCoarsest p (genAlias p st0) level num_rows

/-- The aliasing assignments do not touch the committed level list. -/
theorem genAlias_rstr_prlg (p : GenParams) (st0 : GenState) :
    (genAlias p st0).rstr_prlg_list = st0.rstr_prlg_list := by
  unfold genAlias
  split_ifs <;> rfl

/-- With a successful loop, `generate` is the coarsest-solver tail on
the aliased state. -/
theorem generate_eq_genCoarsest (p : GenParams) (system_rows : Nat)
    (st : GenState) (lvl rows : Nat)
    (hloop : genLoop p (p.max_levels + 1) 0 system_rows initGenState =
      Except.ok (st, lvl, rows)) :
    generate p system_rows = genCoarsest p (genAlias p st) lvl rows := by
  unfold generate
  rw [hloop]
  rfl

/-- Claim C2: `handle_list` resolves, independently for the smoother
list and the relaxation array: index 0 when the list has exactly one
entry regardless of the current level index; the level index when the
list has more than one entry, with an out-of-bounds level failing the
whole call (no clamping); and a neutral default (null smoother,
relaxation one) when the list is empty.  The combined call succeeds
with the two resolved items appended when both halves succeed. -/
theorem handle_list_resolution (index matrix_rows : Nat)
    (sl : List (Option Nat)) (ra : List ℚ)
    (sm : List (Option (Nat × Nat))) (rl : List ℚ) :
    (∀ s2 r2, handle_list_smoother index matrix_rows sl sm = Except.ok s2 →
        handle_list_relaxation index ra rl = Except.ok r2 →
        handle_list index matrix_rows sl ra sm rl = Except.ok (s2, r2))
    ∧ (sl.length = 0 →
        handle_list_smoother index matrix_rows sl sm = Except.ok (sm ++ [none]))
    ∧ (sl.length = 1 →
        handle_list_smoother index matrix_rows sl sm =
          Except.ok (sm ++ [(sl.getD 0 none).map fun fid => (fid, matrix_rows)]))
    ∧ (1 < sl.length → index < sl.length →
        handle_list_smoother index matrix_rows sl sm =
          Except.ok (sm ++ [(sl.getD index none).map fun fid => (fid, matrix_rows)]))
    ∧ (1 < sl.length → ¬ index < sl.length →
        handle_list_smoother index matrix_rows sl sm =
            Except.error "GKO_ENSURE_IN_BOUNDS"
          ∧ ∀ out, handle_list index matrix_rows sl ra sm rl ≠ Except.ok out)
    ∧ (ra.length = 0 →
        handle_list_relaxation index ra rl = Except.ok (rl ++ [1]))
    ∧ (ra.length = 1 →
        handle_list_relaxation index ra rl = Except.ok (rl ++ [ra.getD 0 1]))
    ∧ (1 < ra.length → index < ra.length →
        handle_list_relaxation index ra rl = Except.ok (rl ++ [ra.getD index 1]))
    ∧ (1 < ra.length → ¬ index < ra.length →
        handle_list_relaxation index ra rl = Except.error "GKO_ENSURE_IN_BOUNDS"
          ∧ ∀ out, handle_list index matrix_rows sl ra sm rl ≠ Except.ok out) := by
  refine ⟨?_, ?_, ?_, ?_, ?_, ?_, ?_, ?_, ?_⟩
  · intro s2 r2 hs hr
    unfold handle_list
    rw [hs, hr]
    rfl
  · intro h0
    unfold handle_list_smoother
    rw [if_neg (by omega)]
  · intro h1
    unfold handle_list_smoother
    rw [if_pos (show sl.length ≠ 0 by omega), if_pos h1,
      if_pos (show 0 < sl.length by omega)]
    cases hg : sl.getD 0 none <;> rfl
  · intro hgt hin
    unfold handle_list_smoother
    rw [if_pos (show sl.length ≠ 0 by omega),
      if_neg (show ¬ sl.length = 1 by omega), if_pos hin]
    cases hg : sl.getD index none <;> rfl
  · intro hgt hout
    have hs : handle_list_smoother index matrix_rows sl sm =
        Except.error "GKO_ENSURE_IN_BOUNDS" := by
      unfold handle_list_smoother
      rw [if_pos (show sl.length ≠ 0 by omega),
        if_neg (show ¬ sl.length = 1 by omega), if_neg hout]
    refine ⟨hs, ?_⟩
    intro out hcontr
    unfold handle_list at hcontr
    rw [hs] at hcontr
    cases hcontr
  · intro h0
    unfold handle_list_relaxation
    rw [if_neg (by omega)]
  · intro h1
    unfold handle_list_relaxation
    rw [if_pos (show ra.length ≠ 0 by omega), if_pos h1,
      if_pos (show 0 < ra.length by omega)]
  · intro hgt hin
    unfold handle_list_relaxation
    rw [if_pos (show ra.length ≠ 0 by omega),
      if_neg (show ¬ ra.length = 1 by omega), if_pos hin]
  · intro hgt hout
    have hr : handle_list_relaxation index ra rl =
        Except.error "GKO_ENSURE_IN_BOUNDS" := by
      unfold handle_list_relaxation
      rw [if_pos (show ra.length ≠ 0 by omega),
        if_neg (show ¬ ra.length = 1 by omega), if_neg hout]
    refine ⟨hr, ?_⟩
    intro out hcontr
    unfold handle_list at hcontr
    cases hsm : handle_list_smoother index matrix_rows sl sm with
    | error e =>
      rw [hsm] at hcontr
      cases hcontr
    | ok a =>
      rw [hsm] at hcontr
      simp only [Bind.bind, Except.bind, hr] at hcontr
      cases hcontr

theorem genLoop_pairs (p : GenParams) :
    ∀ fuel level num_rows st out,
      genLoop p fuel level num_rows st = Except.ok out →
      (∀ pr ∈ st.rstr_prlg_list, pr.2 ≠ pr.1) →
      ∀ pr ∈ out.1.rstr_prlg_list, pr.2 ≠ pr.1 := by
  intro fuel
  induction fuel with
  | zero => intro level num_rows st out h; cases h
  | succ n ih =>
    intro level num_rows st out h hst
    unfold genLoop at h
    simp only [Bind.bind, Except.bind, pure, Except.pure] at h
    split at h
    case isFalse => cases h; exact hst
    case isTrue hguard =>
    split at h
    case isFalse => cases h
    case isTrue hidx =>
    split at h
    case isTrue heq => cases h; exact hst
    case isFalse hne =>
    have hnew : ∀ pr ∈ st.rstr_prlg_list ++
        [(num_rows, (p.rstr_prlg.getD (p.rstr_prlg_index level num_rows) id) num_rows)],
        pr.2 ≠ pr.1 := by
      intro pr hpr
      rcases List.mem_append.mp hpr with hp | hp
      · exact hst pr hp
      · simp only [List.mem_singleton] at hp
        subst hp
        simpa using fun hc => hne hc
    repeat' split at h
    all_goals first
      | exact Except.noConfusion h
      | exact ih _ _ _ _ h hnew

theorem genLoop_length (p : GenParams) :
    ∀ fuel level num_rows st out,
      genLoop p fuel level num_rows st = Except.ok out →
      out.1.rstr_prlg_list.length + level = st.rstr_prlg_list.length + out.2.1 := by
  intro fuel
  induction fuel with
  | zero => intro level num_rows st out h; cases h
  | succ n ih =>
    intro level num_rows st out h
    unfold genLoop at h
    simp only [Bind.bind, Except.bind, pure, Except.pure] at h
    split at h
    case isFalse => cases h; simp
    case isTrue hguard =>
    split at h
    case isFalse => exact Except.noConfusion h
    case isTrue hidx =>
    split at h
    case isTrue heq => cases h; simp
    case isFalse hne =>
    repeat' split at h
    all_goals first
      | exact Except.noConfusion h
      | (have h2 := ih _ _ _ _ h
         simp only [List.length_append, List.length_cons, List.length_nil] at h2
         omega)

theorem genLoop_stop_on_equal (p : GenParams) (fuel level num_rows : Nat)
    (st : GenState)
    (hl : level < p.max_levels) (hr : p.min_coarse_rows < num_rows)
    (hi : p.rstr_prlg_index level num_rows < p.rstr_prlg.length)
    (he : (p.rstr_prlg.getD (p.rstr_prlg_index level num_rows) id) num_rows
      = num_rows) :
    genLoop p (fuel + 1) level num_rows st = Except.ok (st, level, num_rows) := by
  unfold genLoop
  rw [if_pos (And.intro hl hr), if_pos hi, if_pos he]
  rfl

theorem generate_ok_inv (p : GenParams) (system_rows : Nat) (h2 : Hierarchy)
    (h : generate p system_rows = Except.ok h2) :
    ∃ st lvl rows,
      genLoop p (p.max_levels + 1) 0 system_rows initGenState =
          Except.ok (st, lvl, rows)
        ∧ h2.rstr_prlg_list = st.rstr_prlg_list ∧ 0 < lvl := by
  cases hloop : genLoop p (p.max_levels + 1) 0 system_rows initGenState with
  | error e =>
    unfold generate at h
    rw [hloop] at h
    exact Except.noConfusion h
  | ok t =>
    obtain ⟨st, lvl, rows⟩ := t
    rw [generate_eq_genCoarsest p system_rows st lvl rows hloop] at h
    unfold genCoarsest at h
    repeat' split at h
    all_goals first
      | exact Except.noConfusion h
      | (cases h
         exact ⟨st, lvl, rows, rfl, genAlias_rstr_prlg p st, by assumption⟩)

theorem handle_list_resolution_witness :
    handle_list_smoother 1 7 [some 5, none, some 9] [] =
      Except.ok ([] ++ [(([some 5, none, some 9] : List (Option Nat)).getD 1
        none).map fun fid => (fid, 7)]) :=
  (handle_list_resolution 1 7 [some 5, none, some 9] [2] [] []).2.2.2.1
    (by decide) (by decide)

/-- Claim C3 (amended): every committed level of a generated hierarchy
has a coarse row count different from its parent row count, and when
the produced coarse operator row count equals the current row count,
the loop stops immediately and returns without adding that level.
(The original claim of a strictly smaller row count does not hold: the
loop only breaks on equality, so a coarsening that increases the row
count still commits the level, see the counterexample.) -/
theorem coarse_row_change (p : GenParams) (system_rows : Nat) :
    (∀ h2, generate p system_rows = Except.ok h2 →
        ∀ pr ∈ h2.rstr_prlg_list, pr.2 ≠ pr.1)
    ∧ (∀ fuel level num_rows st,
        level < p.max_levels → p.min_coarse_rows < num_rows →
        p.rstr_prlg_index level num_rows < p.rstr_prlg.length →
        (p.rstr_prlg.getD (p.rstr_prlg_index level num_rows) id) num_rows
          = num_rows →
        genLoop p (fuel + 1) level num_rows st = Except.ok (st, level, num_rows)) := by
  constructor
  · intro h2 hok pr hpr
    obtain ⟨st, lvl, rows, hloop, hlist, hpos⟩ := generate_ok_inv p system_rows h2 hok
    have hinv := genLoop_pairs p _ _ _ _ _ hloop
      (by intro q hq; simp [initGenState] at hq)
    rw [hlist] at hpr
    exact hinv pr hpr
  · intro fuel level num_rows st hl hr hi he
    exact genLoop_stop_on_equal p fuel level num_rows st hl hr hi he

/-- Parameters exhibiting a coarsening that increases the row count:
one rstr_prlg factory mapping n rows to n + 1 rows, no smoothers, no
coarsest-solver factory. -/
def pCE : GenParams where
  max_levels := 1
  min_coarse_rows := 0
  rstr_prlg := [fun n => n + 1]
  rstr_prlg_index := fun _ _ => 0
  pre_smoother := []
  pre_relaxation := []
  mid_smoother := []
  mid_relaxation := []
  post_smoother := []
  post_relaxation := []
  mid_case := MidUses.mid
  post_uses_pre := false
  coarsest_solver := []
  solver_index := fun _ _ => 0

/-- The hierarchy produced by `generate pCE 1`. -/
def hCE : Hierarchy :=
  ⟨[(1, 2)], [none], [1], [none], [1], [none], [1], CoarsestSolver.identity 2⟩

/-- Counterexample to claim C3 as stated: with the row-increasing
coarsening of `pCE` and system row count 1, `generate` succeeds and
commits the level (parent rows 1, coarse rows 2), whose coarse row
count is not strictly less than the parent row count; the coarse
operator did not reduce the row count, yet growth did not stop before
committing it. -/
theorem coarse_row_strict_decrease_cex :
    generate pCE 1 = Except.ok hCE
      ∧ (1, 2) ∈ hCE.rstr_prlg_list
      ∧ ¬ ((2 : Nat) < 1) := by
  refine ⟨?_, by decide, by decide⟩
  rfl

theorem coarse_row_change_witness : (2 : Nat) ≠ 1 :=
  (coarse_row_change pCE 1).1 hCE rfl (1, 2) (by decide)

/-- Claim C7: after a successful loop with at least one level, the
coarsest solver is the identity operator of the final coarse matrix
size when the coarsest-solver factory list is empty or the selected
factory is null; otherwise it is generated by the selected factory
from the final coarse matrix, and the selector index must be in
bounds of the list (out of bounds fails generation). -/
theorem coarsest_solver_selection (p : GenParams) (system_rows : Nat)
    (st : GenState) (lvl rows : Nat)
    (hloop : genLoop p (p.max_levels + 1) 0 system_rows initGenState =
      Except.ok (st, lvl, rows))
    (hpos : 0 < lvl) :
    (p.coarsest_solver.length = 0 →
        generate p system_rows =
          Except.ok (mkHierarchy (genAlias p st) (CoarsestSolver.identity rows)))
    ∧ (p.coarsest_solver.length ≠ 0 →
        ¬ p.solver_index lvl rows < p.coarsest_solver.length →
        generate p system_rows = Except.error "GKO_ENSURE_IN_BOUNDS")
    ∧ (p.coarsest_solver.length ≠ 0 →
        p.solver_index lvl rows < p.coarsest_solver.length →
        (p.coarsest_solver.getD (p.solver_index lvl rows) none = none →
          generate p system_rows =
            Except.ok (mkHierarchy (genAlias p st) (CoarsestSolver.identity rows)))
        ∧ (∀ fid,
            p.coarsest_solver.getD (p.solver_index lvl rows) none = some fid →
            generate p system_rows =
              Except.ok (mkHierarchy (genAlias p st)
                (CoarsestSolver.generated fid rows)))) := by
  have hg := generate_eq_genCoarsest p system_rows st lvl rows hloop
  refine ⟨?_, ?_, ?_⟩
  · intro hlen
    rw [hg]
    unfold genCoarsest
    rw [if_pos hpos, if_pos hlen]
  · intro hlen hout
    rw [hg]
    unfold genCoarsest
    rw [if_pos hpos, if_neg hlen, if_neg hout]
  · intro hlen hin
    constructor
    · intro hnone
      rw [hg]
      unfold genCoarsest
      rw [if_pos hpos, if_neg hlen, if_pos hin, hnone]
    · intro fid hsome
      rw [hg]
      unfold genCoarsest
      rw [if_pos hpos, if_neg hlen, if_pos hin, hsome]

/-- The loop state produced by `genLoop` on `pCE` with one row. -/
def stCE : GenState := ⟨[(1, 2)], [none], [1], [none], [1], [none], [1]⟩

theorem coarsest_solver_selection_witness :
    generate pCE 1 =
      Except.ok (mkHierarchy (genAlias pCE stCE) (CoarsestSolver.identity 2)) :=
  (coarsest_solver_selection pCE 1 stCE 1 2 rfl (by decide)).1 rfl

/-- Claim C8: a successfully generated hierarchy has at least one
committed level, and when the loop finishes with zero levels generated
the assertion `GKO_ASSERT_EQ(level > 0, true)` makes `generate` fail
instead of returning an empty hierarchy. -/
theorem generate_at_least_one_level (p : GenParams) (system_rows : Nat) :
    (∀ h2, generate p system_rows = Except.ok h2 →
        1 ≤ h2.rstr_prlg_list.length)
    ∧ (∀ st rows,
        genLoop p (p.max_levels + 1) 0 system_rows initGenState =
          Except.ok (st, 0, rows) →
        generate p system_rows = Except.error "GKO_ASSERT_EQ") := by
  constructor
  · intro h2 hok
    obtain ⟨st, lvl, rows, hloop, hlist, hpos⟩ :=
      generate_ok_inv p system_rows h2 hok
    have hlen := genLoop_length p _ _ _ _ _ hloop
    simp only [initGenState, List.length_nil, Nat.add_zero, Nat.zero_add] at hlen
    rw [hlist]
    omega
  · intro st rows hloop
    rw [generate_eq_genCoarsest p system_rows st 0 rows hloop]
    unfold genCoarsest
    rw [if_neg (by omega)]

theorem generate_at_least_one_level_witness : 1 ≤ hCE.rstr_prlg_list.length :=
  (generate_at_least_one_level pCE 1).1 hCE rfl

/-- Destination executor kinds of the `CudaExecutor::raw_copy_to`
overloads in `cuda/base/executor.cpp`. -/
inductive DestExec where
  | cuda (device_id : Nat)
  | hip (device_id : Nat)
  | dpcpp (device_id : Nat)
deriving DecidableEq, Repr

/-- The action performed by a device-to-device copy: nothing (zero
bytes), or an asynchronous peer copy between the two device ids. -/
inductive CopyAct where
  | none_performed
  | memcpyPeerAsync (src_device dst_device : Nat)
deriving DecidableEq, Repr

/-- The `CudaExecutor::raw_copy_to` overloads for device destinations:
to a DpcppExecutor the body is `GKO_NOT_SUPPORTED(dest)` (throws); to
a CudaExecutor a `cudaMemcpyPeerAsync` runs when `num_bytes > 0`; to a
HipExecutor the peer copy exists only when compiled with
`GINKGO_HIP_PLATFORM_NVCC == 1`, otherwise `GKO_NOT_SUPPORTED`. -/
def CudaExecutor.raw_copy_to (ginkgo_hip_platform_nvcc : Bool)
    (src_device : Nat) (dest : DestExec) (num_bytes : Nat) :
    Except String CopyAct :=
  match dest with
  | DestExec.dpcpp _ => Except.error "GKO_NOT_SUPPORTED"
  | DestExec.cuda d =>
    if 0 < num_bytes then Except.ok (CopyAct.memcpyPeerAsync src_device d)
    else Except.ok CopyAct.none_performed
  | DestExec.hip d =>
    if ginkgo_hip_platform_nvcc = true then
      if 0 < num_bytes then Except.ok (CopyAct.memcpyPeerAsync src_device d)
      else Except.ok CopyAct.none_performed
    else Except.error "GKO_NOT_SUPPORTED"

/-- Claim C9: a device-to-device copy from a CUDA context to the
incompatible DPC++ backend fails with the Not-Supported error and is
never an ok no-op, while a copy to another CUDA context performs a
peer copy (for a positive byte count). -/
theorem cuda_cross_backend_copy (nvcc : Bool) (src d n : Nat) :
    (CudaExecutor.raw_copy_to nvcc src (DestExec.dpcpp d) n =
        Except.error "GKO_NOT_SUPPORTED"
      ∧ ∀ act, CudaExecutor.raw_copy_to nvcc src (DestExec.dpcpp d) n ≠
          Except.ok act)
    ∧ (0 < n →
        CudaExecutor.raw_copy_to nvcc src (DestExec.cuda d) n =
          Except.ok (CopyAct.memcpyPeerAsync src d)) := by
  refine ⟨⟨rfl, ?_⟩, ?_⟩
  · intro act h
    exact Except.noConfusion h
  · intro hn
    show (if 0 < n then Except.ok (CopyAct.memcpyPeerAsync src d)
        else Except.ok CopyAct.none_performed) =
      Except.ok (CopyAct.memcpyPeerAsync src d)
    rw [if_pos hn]

theorem cuda_cross_backend_copy_witness :
    CudaExecutor.raw_copy_to true 0 (DestExec.cuda 1) 4 =
      Except.ok (CopyAct.memcpyPeerAsync 0 1) :=
  (cuda_cross_backend_copy true 0 1 4).2 (by decide)

/-- Dense vectors with rational entries, flattening the value type of
`matrix::Dense`. -/
abbrev Vec := List ℚ

/-- `Dense::clone`: a fresh copy of the vector. -/
def cloneVec (x : Vec) : Vec := x

/-- `Dense::scale(beta)`: entrywise x := beta * x. -/
def scaleVec (b : ℚ) (x : Vec) : Vec := x.map fun xi => b * xi

/-- `Dense::add_scaled(alpha, y)`: entrywise x := x + alpha * y. -/
def add_scaled (a : ℚ) (y x : Vec) : Vec :=
  List.zipWith (fun xi yi => xi + a * yi) x y

/-- `Multigrid::apply_impl(alpha, b, beta, x)`: clone x, run the plain
apply on the clone, then x := beta * x, x := x + alpha * x_clone.  The
plain `apply(b, y)` is the opaque solve collaborator `solve`, mutating
its second argument in place, embedded as b, initial guess ↦ result. -/
def apply_impl_scaled (solve : Vec → Vec → Vec) (a : ℚ) (b : Vec)
    (bet : ℚ) (x : Vec) : Vec :=
  let x_clone := cloneVec x
  let x_clone2 := solve b x_clone
  add_scaled a x_clone2 (scaleVec bet x)

/-- Claim C10: the scaled overload equals beta times the old x plus
alpha times the result of the plain apply started from a clone of x
(the same initial guess; the incoming x enters the result only through
the beta term), entrywise over the columns. -/
theorem apply_scaled_equiv (solve : Vec → Vec → Vec) (a bet : ℚ)
    (b x : Vec) :
    apply_impl_scaled solve a b bet x =
      List.zipWith (fun xi yi => bet * xi + a * yi) x (solve b x)
    ∧ cloneVec x = x := by
  constructor
  · simp [apply_impl_scaled, add_scaled, scaleVec, cloneVec,
      List.zipWith_map_left]
  · rfl
